import Mathlib

/-!
Verification of the CSVsniffer table-uniformity core.

This file shallowly embeds the Python sources
`table_uniformity_MAD_EPY.py` (class `t_uniformity`) and
`table_score_MAD_EPY.py` (class `t_score`).

Modelling conventions:
* Python floats are modelled exactly: quantities that the code derives by
  rational arithmetic live in `ℚ`, quantities involving `math.log2` live in
  `ℝ` (`Real.logb 2`).
* Nullable Python references (`None`) are `Option`s.
* `raise ValueError` is `Except.error`.
* The instance-field mutation of `self.lambda_sum` performed by
  `compute_type_scores` is explicit state passing: the function returns the
  updated `t_uniformity` record together with its Python return value.
* A second family of definitions (suffix `F`) instruments every division the
  code performs with a zero-denominator check, so that Python's
  `ZeroDivisionError` is observable; `divE`/`divER` return
  `Except.error "ZeroDivisionError"` exactly when the denominator is zero.
* External collaborators that are not part of the repository sources
  (`type_detector.detect_type`, `trip_quotes` from `type_detection.py`, the
  CSV parser from `table_def.py`, and the `Dialect` class from
  `csv_dialect.py`) are universally quantified parameters; the `Dialect`
  record is modelled from the spec (delimiter / quote / escape characters and
  a validity predicate).
-/

/-- Modelled from the spec: the external `Dialect` of `csv_dialect.py` is an
immutable configuration with delimiter, quote and escape characters and a
validity predicate (`validate`). -/
structure Dialect where
  delimiter : String
  quotechar : String
  escapechar : String
  validate : Bool
deriving DecidableEq

/-- The external collaborators used by `compute_type_scores`:
`type_detector().detect_type(value, is_quoted)` returning a type tag or
`None`, and the quote-stripping utility `trip_quotes(field, dialect)` from
`type_detection.py`. -/
structure Externals where
  detect_type : String → Bool → Option String
  trip_quotes : String → Dialect → String

/-- State of a `t_uniformity` object: `table`, `dialect` and the
`lambda_sum` instance field (`self.table`, `self.dialect`,
`self.lambda_sum`). -/
structure t_uniformity where
  table : Option (List (List String))
  dialect : Option Dialect
  lambda_sum : ℚ

/-- `t_uniformity.__init__`: stores the table and the dialect and sets
`self.lambda_sum = 0`, ignoring the `lambda_sum` constructor parameter. -/
def t_uniformity.init (table : Option (List (List String)))
    (dialect : Option Dialect) (lambda_sum : ℚ) : t_uniformity :=
  { table := table, dialect := dialect, lambda_sum := 0 }

/-- `t_uniformity.validate`: raises `ValueError` when `self.table is None`
or `self.dialect is None`. -/
def t_uniformity.validateE (u : t_uniformity) : Except String Unit :=
  match u.table with
  | none => .error "The target table should be provided"
  | some _ =>
    match u.dialect with
    | none => .error "The dialect should be provided"
    | some _ => .ok ()

/-- `t_uniformity.avg_fields`: sum of the record lengths divided by the
number of records, `0.0` for a falsy (`None` or empty) table. -/
def t_uniformity.avg_fields (u : t_uniformity) : ℚ :=
  match u.table with
  | none => 0
  | some tbl =>
    if tbl = [] then 0
    else ((tbl.map (fun record => (record.length : ℚ))).sum) / (tbl.length : ℚ)

/-- Insertion of an element into an ascending-sorted rational list. -/
def insertSorted (a : ℚ) : List ℚ → List ℚ
  | [] => [a]
  | b :: bs => if a ≤ b then a :: b :: bs else b :: insertSorted a bs

/-- Ascending sort, as performed internally by `statistics.median`. -/
def sortQ (l : List ℚ) : List ℚ := l.foldr insertSorted []

/-- `statistics.median`: middle element of the sorted data for odd length,
average of the two middle elements for even length. -/
def median (l : List ℚ) : ℚ :=
  let s := sortQ l
  let n := l.length
  if n % 2 = 1 then s.getD (n / 2) 0
  else (s.getD (n / 2 - 1) 0 + s.getD (n / 2) 0) / 2

/-- The normal-consistency constant `1.4826` used for the MAD. -/
def madConst : ℚ := 14826 / 10000

/-- The scaled median absolute deviation computed by `compute` from the
field-length list: `statistics.median(devs) * 1.4826` with
`devs = [abs(k - med) for k in field_lengths]`. -/
def madOf (field_lengths : List ℕ) : ℚ :=
  let med := median (field_lengths.map (fun k => (k : ℚ)))
  let devs := field_lengths.map (fun k => |(k : ℚ) - med|)
  median devs * madConst

/-- `tau_0` as computed by `compute`: for more than one record,
`1 / (1 + 2 * mad)` guarded by `(1 + 2 * mad) != 0`, else `1.0`;
a single-record table gets `1.0`. -/
def tau0Of (field_lengths : List ℕ) : ℚ :=
  if 1 < field_lengths.length then
    if 1 + 2 * madOf field_lengths ≠ 0 then 1 / (1 + 2 * madOf field_lengths)
    else 1
  else 1

/-- State of the `tau_1` scan loop in `compute`: current run counter `c`,
best run value `sm`, transition counter `alpha`, and the running
maximum/minimum field counts. -/
structure ScanState where
  c : ℕ
  sm : ℕ
  alpha : ℕ
  k_max : ℕ
  k_min : ℕ
deriving DecidableEq

/-- Body of the `tau_1` scan for the loop indices `i = 1 .. n-1`: `prev` is
`field_lengths[i-1]`, `rest` the remaining lengths; the Python test
`i == n - 1` is exactly "`rest` has no further element". -/
def loopGo (prev : ℕ) (rest : List ℕ) (s : ScanState) : ScanState :=
  match rest with
  | [] => s
  | k :: ks =>
    let kmax := if k > s.k_max then k else s.k_max
    let kmin := if k < s.k_min then k else s.k_min
    if prev ≠ k then
      loopGo k ks
        { c := 0, sm := if s.c > s.sm then s.c else s.sm,
          alpha := s.alpha + 1, k_max := kmax, k_min := kmin }
    else
      let c := s.c + 1
      let sm := if ks = [] then (if c > s.sm then c else s.sm) else s.sm
      loopGo k ks { c := c, sm := sm, alpha := s.alpha, k_max := kmax, k_min := kmin }

/-- The whole `tau_1` scan of `compute`: iteration `i = 0` seeds the run
counter (`c = 1`, and `sm = 1` when `n == 1`) and the min/max trackers with
`field_lengths[0]`; the remaining iterations are `loopGo`. -/
def tau1ScanOf (field_lengths : List ℕ) : ScanState :=
  match field_lengths with
  | [] => { c := 0, sm := 0, alpha := 0, k_max := 0, k_min := 0 }
  | k0 :: ks =>
    loopGo k0 ks
      { c := 1, sm := if ks = [] then 1 else 0, alpha := 0, k_max := k0, k_min := k0 }

/-- `base_tau_1` as computed by `compute`: when `alpha > 0` and `sm > 0`,
`2 * r * (alpha^2 + 1) * ((1 - beta) / sm)` with `beta = sm / n` and
`r = k_max - k_min`, otherwise `0.0`. -/
def base_tau1Of (field_lengths : List ℕ) : ℚ :=
  let s := tau1ScanOf field_lengths
  let n := field_lengths.length
  let r : ℕ := s.k_max - s.k_min
  if 0 < s.alpha ∧ 0 < s.sm then
    2 * (r : ℚ) * ((s.alpha : ℚ) ^ 2 + 1) * ((1 - (s.sm : ℚ) / (n : ℚ)) / (s.sm : ℚ))
  else 0

/-- The multiplicity list of a `collections.Counter`: one count per distinct
value of `l`. -/
def freqCounts {α : Type} [DecidableEq α] (l : List α) : List ℕ :=
  l.dedup.map (fun a => l.count a)

/-- The Shannon-entropy accumulation loop shared by `compute` (field-length
entropy) and `compute_tau3`: `entropy -= p * log2 p` for each count, with
`p = count / n`, skipping non-positive `p`. -/
noncomputable def entropySum (counts : List ℕ) (n : ℕ) : ℝ :=
  counts.foldl
    (fun (h : ℝ) (c : ℕ) =>
      let p : ℚ := (c : ℚ) / (n : ℚ)
      if 0 < p then h - (p : ℝ) * Real.logb 2 (p : ℝ) else h) 0

/-- `tau_1` as computed by `compute`: `base_tau_1 * (1 + entropy_h)` with
`entropy_h` the entropy of the field-length distribution. -/
noncomputable def tau1Of (field_lengths : List ℕ) : ℝ :=
  (base_tau1Of field_lengths : ℝ) *
    (1 + entropySum (freqCounts field_lengths) field_lengths.length)

/-- `compute_tau3`: the cell-length shape of each row. -/
def shapesOf (tbl : List (List String)) : List (List ℕ) :=
  tbl.map (fun row => row.map String.length)

/-- `t_uniformity.compute_tau3`: entropy of the row-shape distribution,
`0.0` for an empty table. -/
noncomputable def compute_tau3 (tbl : List (List String)) : ℝ :=
  let row_structures := shapesOf tbl
  let n := row_structures.length
  if n = 0 then 0 else entropySum (freqCounts row_structures) n

/-- The score of a single field in `compute_type_scores`: strip quotes with
`trip_quotes`, flag the field as quoted when it both starts and ends with
the dialect's quote character, then `100.0` when `detect_type` recognises a
type and `0.1` otherwise. -/
def fieldScore (E : Externals) (d : Dialect) (field : String) : ℚ :=
  let cleaned_field := E.trip_quotes field d
  let is_quoted := field.startsWith d.quotechar && field.endsWith d.quotechar
  match E.detect_type cleaned_field is_quoted with
  | some _ => 100
  | none => 1 / 10

/-- `num_cols` in `compute_type_scores`: `max(len(row) for row in table)`. -/
def num_colsOf (tbl : List (List String)) : ℕ :=
  (tbl.map List.length).foldl Nat.max 0

/-- Accumulated `column_scores[j]` of `compute_type_scores`: each row whose
length exceeds `j` contributes the score of its `j`-th field. -/
def colScore (E : Externals) (d : Dialect) (tbl : List (List String)) (j : ℕ) : ℚ :=
  (tbl.map (fun row =>
    match row.get? j with
    | some field => fieldScore E d field
    | none => 0)).sum

/-- `total_field_scores` of `compute_type_scores`: the score of every field
of every row. -/
def totalScores (E : Externals) (d : Dialect) (tbl : List (List String)) : ℚ :=
  (tbl.map (fun row => (row.map (fieldScore E d)).sum)).sum

/-- `t_uniformity.compute_type_scores`: returns the per-column average
scores and ALSO mutates the instance field `self.lambda_sum` to
`total_field_scores / num_cols`; the returned pair is (updated object,
Python return value).  A falsy table returns `[]` without touching the
field. -/
def t_uniformity.compute_type_scores (E : Externals) (u : t_uniformity) :
    t_uniformity × List ℚ :=
  match u.table with
  | none => (u, [])
  | some tbl =>
    if tbl = [] then (u, [])
    else
      match u.dialect with
      | none => (u, [])
      | some d =>
        let num_cols := num_colsOf tbl
        let num_rows := tbl.length
        let column_averages :=
          (List.range num_cols).map
            (fun j => if 0 < num_rows then colScore E d tbl j / (num_rows : ℚ) else 0)
        let lam := if 0 < num_cols then totalScores E d tbl / (num_cols : ℚ) else 0
        ({ u with lambda_sum := lam }, column_averages)

/-- The maximum of a list as Python's builtin `max` computes it on a
non-empty list. -/
def pymax (l : List ℚ) : ℚ := l.foldl max (l.headD 0)

/-- `t_uniformity.compute_tau2`: mean of `1 - deviation / max_deviation`
over the per-column average scores, with `max_var` falling back to `1.0`
when the maximal deviation is not positive; `0.0` for an empty list. -/
def compute_tau2 (column_scores : List ℚ) : ℚ :=
  if column_scores = [] then 0
  else
    let mean_score := column_scores.sum / (column_scores.length : ℚ)
    let variances := column_scores.map (fun score => |score - mean_score|)
    let max_var := if 0 < pymax variances then pymax variances else 1
    ((variances.map (fun v => 1 - v / max_var)).sum) / (variances.length : ℚ)

/-- The metric vector `[tau_0, tau_1, tau_2, tau_3, lambda_sum]` returned by
`compute`. -/
structure Metrics where
  tau_0 : ℝ
  tau_1 : ℝ
  tau_2 : ℝ
  tau_3 : ℝ
  lambda_sum : ℝ

/-- `t_uniformity.compute`: validates, returns the zero vector for an empty
table, and otherwise assembles the five metrics; the result pairs the
(possibly `lambda_sum`-mutated) object with the metric vector. -/
noncomputable def t_uniformity.compute (E : Externals) (u : t_uniformity) :
    Except String (t_uniformity × Metrics) :=
  match u.validateE with
  | .error e => .error e
  | .ok _ =>
    let tbl := u.table.getD []
    let n := tbl.length
    if n = 0 then
      .ok (u, { tau_0 := 0, tau_1 := 0, tau_2 := 0, tau_3 := 0, lambda_sum := 0 })
    else
      let field_lengths := tbl.map List.length
      let tau_0 := tau0Of field_lengths
      let _phi := u.avg_fields
      let tau_1 := tau1Of field_lengths
      let res := u.compute_type_scores E
      let column_scores := res.2
      let tau_2 := compute_tau2 column_scores
      let tau_3 := compute_tau3 tbl
      .ok (res.1,
        { tau_0 := (tau_0 : ℝ), tau_1 := tau_1, tau_2 := (tau_2 : ℝ),
          tau_3 := tau_3, lambda_sum := (res.1.lambda_sum : ℝ) })

open Classical in
/-- `t_uniformity.overall_score`: runs `compute`, then combines the metrics
into `omega'`, returning `0.0` when `tau_1 + n == 0` or `tau_3 + 1 == 0`. -/
noncomputable def t_uniformity.overall_score (E : Externals) (u : t_uniformity)
    (delta : ℝ) : Except String ℝ :=
  match u.compute E with
  | .error e => .error e
  | .ok (u', m) =>
    let n : ℝ := ((u'.table.getD []).length : ℝ)
    if m.tau_1 + n = 0 ∨ m.tau_3 + 1 = 0 then .ok 0
    else
      .ok ((m.tau_0 / delta) + (1 / (m.tau_1 + n)) + (m.tau_2 / n) +
        (1 / ((1 + m.tau_3) * n)) * m.lambda_sum)

/-- State of a `t_score` object (`table_score_MAD_EPY.py`). -/
structure t_score where
  csv_path : Option String
  dialect : Option Dialect
  threshold : ℕ
  encoding : String

/-- `t_score.validate`: raises `ValueError` when the path is `None` or
empty, or when the dialect is `None` or reports itself invalid. -/
def t_score.validateE (s : t_score) : Except String Unit :=
  match s.csv_path with
  | none => .error "The path to the target CSV file should be provided"
  | some p =>
    if p.length = 0 then .error "The path to the target CSV file should be provided"
    else
      match s.dialect with
      | none => .error "The dialect should be provided"
      | some d =>
        if !d.validate then .error "The dialect should be provided"
        else .ok ()

/-- `t_score.compute`: validates, obtains the table sample from the external
parser (`table_constructor(file_path, threshold, encoding).fromCSV(dialect)`,
modelled as the parameter `parser`), constructs the scorer from the sample
and the dialect, and returns `overall_score(delta=threshold)`. -/
noncomputable def t_score.compute
    (parser : String → ℕ → String → Dialect → List (List String))
    (E : Externals) (s : t_score) : Except String ℝ :=
  match s.validateE with
  | .error e => .error e
  | .ok _ =>
    let p := s.csv_path.getD ""
    let d := s.dialect.getD { delimiter := "", quotechar := "", escapechar := "", validate := false }
    let sample := parser p s.threshold s.encoding d
    t_uniformity.overall_score E (t_uniformity.init (some sample) (some d) 0)
      (s.threshold : ℝ)

/-! ## Division-fault instrumentation

The `F` definitions below repeat the embedding above with every division
the Python code executes routed through `divE` (rationals) or `divER`
(reals), which model `ZeroDivisionError`.  The guards of the source are
kept exactly where the source has them, so a fault occurs in the model
exactly where the interpreter would raise. -/

/-- Rational division as Python executes it: raises on a zero denominator. -/
def divE (a b : ℚ) : Except String ℚ :=
  if b = 0 then .error "ZeroDivisionError" else .ok (a / b)

open Classical in
/-- Real division as Python executes it: raises on a zero denominator. -/
noncomputable def divER (a b : ℝ) : Except String ℝ :=
  if b = 0 then .error "ZeroDivisionError" else .ok (a / b)

/-- `avg_fields` with instrumented division. -/
def avg_fieldsF (u : t_uniformity) : Except String ℚ :=
  match u.table with
  | none => .ok 0
  | some tbl =>
    if tbl = [] then .ok 0
    else divE ((tbl.map (fun record => (record.length : ℚ))).sum) (tbl.length : ℚ)

/-- `tau_0` with instrumented division (the guard `(1 + 2 * mad) != 0` of
the source is kept in front of the division). -/
def tau0F (field_lengths : List ℕ) : Except String ℚ :=
  if 1 < field_lengths.length then
    if 1 + 2 * madOf field_lengths ≠ 0 then divE 1 (1 + 2 * madOf field_lengths)
    else .ok 1
  else .ok 1

/-- `base_tau_1` with instrumented divisions `beta = sm / n` and
`(1 - beta) / sm`. -/
def base_tau1F (field_lengths : List ℕ) : Except String ℚ :=
  let s := tau1ScanOf field_lengths
  let n := field_lengths.length
  let r : ℕ := s.k_max - s.k_min
  if 0 < s.alpha ∧ 0 < s.sm then do
    let beta ← divE (s.sm : ℚ) (n : ℚ)
    let q ← divE (1 - beta) (s.sm : ℚ)
    pure (2 * (r : ℚ) * ((s.alpha : ℚ) ^ 2 + 1) * q)
  else pure 0

/-- The entropy loop with the division `p = count / n` instrumented. -/
noncomputable def entropySumF (counts : List ℕ) (n : ℕ) : Except String ℝ :=
  counts.foldlM
    (fun (h : ℝ) (c : ℕ) => do
      let p ← divE (c : ℚ) (n : ℚ)
      if 0 < p then pure (h - (p : ℝ) * Real.logb 2 (p : ℝ)) else pure h) 0

/-- `tau_1` with instrumented divisions. -/
noncomputable def tau1F (field_lengths : List ℕ) : Except String ℝ := do
  let base ← base_tau1F field_lengths
  let h ← entropySumF (freqCounts field_lengths) field_lengths.length
  pure ((base : ℝ) * (1 + h))

/-- `compute_tau3` with instrumented divisions. -/
noncomputable def compute_tau3F (tbl : List (List String)) : Except String ℝ :=
  let row_structures := shapesOf tbl
  let n := row_structures.length
  if n = 0 then pure 0 else entropySumF (freqCounts row_structures) n

/-- `compute_type_scores` with instrumented divisions (the source guards
both of them with `if num_rows > 0` / `if num_cols > 0` conditional
expressions). -/
def compute_type_scoresF (E : Externals) (u : t_uniformity) :
    Except String (t_uniformity × List ℚ) :=
  match u.table with
  | none => .ok (u, [])
  | some tbl =>
    if tbl = [] then .ok (u, [])
    else
      match u.dialect with
      | none => .ok (u, [])
      | some d => do
        let num_cols := num_colsOf tbl
        let num_rows := tbl.length
        let column_averages ← (List.range num_cols).mapM
          (fun j =>
            if 0 < num_rows then divE (colScore E d tbl j) (num_rows : ℚ) else pure 0)
        let lam ←
          if 0 < num_cols then divE (totalScores E d tbl) (num_cols : ℚ) else pure 0
        pure ({ u with lambda_sum := lam }, column_averages)

/-- `compute_tau2` with instrumented divisions. -/
def compute_tau2F (column_scores : List ℚ) : Except String ℚ :=
  if column_scores = [] then .ok 0
  else do
    let mean_score ← divE column_scores.sum (column_scores.length : ℚ)
    let variances := column_scores.map (fun score => |score - mean_score|)
    let max_var := if 0 < pymax variances then pymax variances else 1
    let terms ← variances.mapM (fun v => do
      let q ← divE v max_var
      pure (1 - q))
    divE terms.sum (variances.length : ℚ)

/-- `compute` with every division instrumented. -/
noncomputable def computeF (E : Externals) (u : t_uniformity) :
    Except String (t_uniformity × Metrics) :=
  match u.validateE with
  | .error e => .error e
  | .ok _ =>
    let tbl := u.table.getD []
    let n := tbl.length
    if n = 0 then
      .ok (u, { tau_0 := 0, tau_1 := 0, tau_2 := 0, tau_3 := 0, lambda_sum := 0 })
    else do
      let field_lengths := tbl.map List.length
      let tau_0 ← tau0F field_lengths
      let _phi ← avg_fieldsF u
      let tau_1 ← tau1F field_lengths
      let res ← compute_type_scoresF E u
      let tau_2 ← compute_tau2F res.2
      let tau_3 ← compute_tau3F tbl
      pure (res.1,
        { tau_0 := (tau_0 : ℝ), tau_1 := tau_1, tau_2 := (tau_2 : ℝ),
          tau_3 := tau_3, lambda_sum := (res.1.lambda_sum : ℝ) })

open Classical in
/-- `overall_score` with every division instrumented; in particular the
unguarded `tau_0 / delta` of the source. -/
noncomputable def overall_scoreF (E : Externals) (u : t_uniformity)
    (delta : ℝ) : Except String ℝ :=
  match computeF E u with
  | .error e => .error e
  | .ok (u', m) =>
    let n : ℝ := ((u'.table.getD []).length : ℝ)
    if m.tau_1 + n = 0 ∨ m.tau_3 + 1 = 0 then .ok 0
    else do
      let a ← divER m.tau_0 delta
      let b ← divER 1 (m.tau_1 + n)
      let c ← divER m.tau_2 n
      let e ← divER 1 ((1 + m.tau_3) * n)
      pure (a + b + c + e * m.lambda_sum)

/-! ## Declarative run-length view of the field-length sequence

These definitions are written from the words of the claims (longest maximal
run of consecutive equal field counts), independently of the scan loop, and
are compared with the scan by theorem. -/

/-- Number of leading elements of `l` equal to `a`. -/
def leadCount (a : ℕ) : List ℕ → ℕ
  | [] => 0
  | x :: xs => if x = a then leadCount a xs + 1 else 0

/-- Lengths of the maximal runs of `l` that come after the run containing a
preceding element `a`. -/
def afterRuns (a : ℕ) : List ℕ → List ℕ
  | [] => []
  | x :: xs => if x = a then afterRuns a xs else (leadCount x xs + 1) :: afterRuns x xs

/-- Run-length encoding: the lengths of the maximal runs of consecutive
equal elements, in order. -/
def runLengths : List ℕ → List ℕ
  | [] => []
  | a :: l => (leadCount a l + 1) :: afterRuns a l

/-- Length of the longest maximal run of consecutive equal elements. -/
def longestRunLen (l : List ℕ) : ℕ := (runLengths l).foldl Nat.max 0

/-- The value the scan's `sm` actually computes: the first maximal run
counts in full, every later maximal run counts one less than its length. -/
def smSpec (l : List ℕ) : ℕ :=
  match runLengths l with
  | [] => 0
  | r0 :: rs => Nat.max r0 ((rs.map (fun r => r - 1)).foldl Nat.max 0)

/-- Stub externals for concrete evaluations: the classifier recognises no
type and quote-stripping is the identity. -/
def extStub : Externals :=
  { detect_type := fun _ _ => none, trip_quotes := fun s _ => s }

/-- A concrete valid dialect. -/
def dComma : Dialect :=
  { delimiter := ",", quotechar := "\"", escapechar := "\\", validate := true }

/-- A concrete invalid dialect. -/
def dBad : Dialect :=
  { delimiter := ",", quotechar := "\"", escapechar := "\\", validate := false }

/-! ## Helper lemmas -/

lemma mem_insertSorted {x a : ℚ} : ∀ {l : List ℚ}, x ∈ insertSorted a l → x = a ∨ x ∈ l := by
  intro l
  induction l with
  | nil => intro h; simpa [insertSorted] using h
  | cons b bs ih =>
    intro h
    by_cases hab : a ≤ b
    · simpa [insertSorted, hab] using h
    · simp only [insertSorted, if_neg hab, List.mem_cons] at h
      rcases h with h | h
      · exact Or.inr (by simp [h])
      · rcases ih h with h' | h'
        · exact Or.inl h'
        · exact Or.inr (by simp [h'])

lemma mem_sortQ {x : ℚ} : ∀ {l : List ℚ}, x ∈ sortQ l → x ∈ l := by
  intro l
  induction l with
  | nil => intro h; simpa [sortQ] using h
  | cons b bs ih =>
    intro h
    have h' : x ∈ insertSorted b (sortQ bs) := by simpa [sortQ] using h
    rcases mem_insertSorted h' with h'' | h''
    · simp [h'']
    · exact List.mem_cons_of_mem _ (ih (by simpa [sortQ] using h''))

lemma getD_nonneg : ∀ (l : List ℚ) (i : ℕ), (∀ x ∈ l, 0 ≤ x) → 0 ≤ l.getD i 0 := by
  intro l
  induction l with
  | nil => intro i _; simp [List.getD]
  | cons b bs ih =>
    intro i h
    cases i with
    | zero => simpa [List.getD] using h b (by simp)
    | succ j =>
      have := ih j (fun x hx => h x (List.mem_cons_of_mem _ hx))
      simpa [List.getD] using this

lemma median_nonneg {l : List ℚ} (h : ∀ x ∈ l, 0 ≤ x) : 0 ≤ median l := by
  have hs : ∀ x ∈ sortQ l, 0 ≤ x := fun x hx => h x (mem_sortQ hx)
  unfold median
  by_cases hp : l.length % 2 = 1
  · simpa [hp] using getD_nonneg (sortQ l) (l.length / 2) hs
  · have h1 := getD_nonneg (sortQ l) (l.length / 2 - 1) hs
    have h2 := getD_nonneg (sortQ l) (l.length / 2) hs
    simp only [hp, if_false]
    positivity

lemma madOf_nonneg (fl : List ℕ) : 0 ≤ madOf fl := by
  unfold madOf
  have hdev : ∀ x ∈ fl.map (fun k => |(k : ℚ) - median (fl.map (fun k => (k : ℚ)))|), 0 ≤ x := by
    intro x hx
    rcases List.mem_map.mp hx with ⟨k, _, rfl⟩
    exact abs_nonneg _
  have hmed := median_nonneg hdev
  have hc : (0 : ℚ) ≤ madConst := by norm_num [madConst]
  positivity

lemma le_foldl_max (l : List ℚ) (a : ℚ) :
    a ≤ l.foldl max a ∧ ∀ x ∈ l, x ≤ l.foldl max a := by
  induction l generalizing a with
  | nil => exact ⟨le_refl _, by simp⟩
  | cons b bs ih =>
    refine ⟨?_, ?_⟩
    · calc a ≤ max a b := le_max_left _ _
        _ ≤ bs.foldl max (max a b) := (ih (max a b)).1
        _ = (b :: bs).foldl max a := by simp [List.foldl]
    · intro x hx
      rcases List.mem_cons.mp hx with rfl | hx'
      · calc x ≤ max a x := le_max_right _ _
          _ ≤ bs.foldl max (max a x) := (ih (max a x)).1
          _ = (x :: bs).foldl max a := by simp [List.foldl]
      · simpa [List.foldl] using (ih (max a b)).2 x hx'

lemma le_pymax {l : List ℚ} {x : ℚ} (hx : x ∈ l) : x ≤ pymax l :=
  (le_foldl_max l (l.headD 0)).2 x hx

lemma foldl_max_le (l : List ℚ) (a c : ℚ) (ha : a ≤ c) (h : ∀ x ∈ l, x ≤ c) :
    l.foldl max a ≤ c := by
  induction l generalizing a with
  | nil => simpa [List.foldl] using ha
  | cons b bs ih =>
    have hb : b ≤ c := h b (by simp)
    have : max a b ≤ c := max_le ha hb
    simpa [List.foldl] using ih (max a b) this (fun x hx => h x (List.mem_cons_of_mem _ hx))

lemma pymax_le {l : List ℚ} {c : ℚ} (hl : l ≠ []) (h : ∀ x ∈ l, x ≤ c) : pymax l ≤ c := by
  have hh : l.headD 0 ≤ c := by
    cases l with
    | nil => exact absurd rfl hl
    | cons b bs => exact h b (by simp)
  exact foldl_max_le _ _ _ hh h

lemma sum_of_all_eq (l : List ℚ) (c : ℚ) (h : ∀ x ∈ l, x = c) :
    l.sum = (l.length : ℚ) * c := by
  induction l with
  | nil => simp
  | cons b bs ih =>
    have hb : b = c := h b (by simp)
    have := ih (fun x hx => h x (List.mem_cons_of_mem _ hx))
    simp only [List.sum_cons, List.length_cons, this, hb]
    push_cast
    ring

lemma string_length_ne_zero {s : String} (h : s ≠ "") : s.length ≠ 0 := by
  intro h0
  exact h (String.ext (by simpa [String.length] using List.length_eq_zero.mp h0))

/-- C8: for every non-empty list of per-column average scores,
`compute_tau2` returns a value in `[0, 1]`, and it returns exactly `1` when
all column average scores are identical. -/
theorem tau2_range_and_identical (scores : List ℚ) (h : scores ≠ []) :
    (0 ≤ compute_tau2 scores ∧ compute_tau2 scores ≤ 1) ∧
    (∀ c, (∀ x ∈ scores, x = c) → compute_tau2 scores = 1) := by
  have hlenN : 0 < scores.length := List.length_pos.mpr h
  have hlen : (0 : ℚ) < (scores.length : ℚ) := by exact_mod_cast hlenN
  constructor
  · simp only [compute_tau2, if_neg h]
    set mean := scores.sum / (scores.length : ℚ) with hmean
    set vs := scores.map (fun score => |score - mean|) with hvs
    set M := pymax vs with hM
    set max_var := if 0 < M then M else 1 with hmv
    have hvs_nonneg : ∀ v ∈ vs, 0 ≤ v := by
      intro v hv
      rcases List.mem_map.mp hv with ⟨x, _, rfl⟩
      exact abs_nonneg _
    have hmv_pos : 0 < max_var := by
      rw [hmv]; split
      · assumption
      · norm_num
    have hterm : ∀ v ∈ vs, 0 ≤ v / max_var ∧ v / max_var ≤ 1 := by
      intro v hv
      by_cases h0 : 0 < M
      · have hv_le : v ≤ max_var := by
          rw [hmv, if_pos h0]; exact le_pymax hv
        exact ⟨div_nonneg (hvs_nonneg v hv) hmv_pos.le, (div_le_one hmv_pos).mpr hv_le⟩
      · have hv0 : v = 0 :=
          le_antisymm (le_trans (le_pymax hv) (not_lt.mp h0)) (hvs_nonneg v hv)
        rw [hv0]
        simp
    have hts : ∀ t ∈ vs.map (fun v => 1 - v / max_var), 0 ≤ t ∧ t ≤ 1 := by
      intro t ht
      rcases List.mem_map.mp ht with ⟨v, hv, rfl⟩
      have := hterm v hv
      constructor <;> linarith [this.1, this.2]
    have hsum0 : 0 ≤ (vs.map (fun v => 1 - v / max_var)).sum :=
      List.sum_nonneg (fun x hx => (hts x hx).1)
    have hsum1 : (vs.map (fun v => 1 - v / max_var)).sum ≤
        (((vs.map (fun v => 1 - v / max_var)).length : ℚ)) := by
      have := List.sum_le_card_nsmul (vs.map (fun v => 1 - v / max_var)) 1
        (fun x hx => (hts x hx).2)
      simpa using this
    have hlvs : ((vs.length : ℚ)) = (scores.length : ℚ) := by
      rw [hvs]; simp
    constructor
    · apply div_nonneg hsum0
      rw [hlvs]; exact hlen.le
    · rw [div_le_one (by rw [hlvs]; exact hlen)]
      calc (vs.map (fun v => 1 - v / max_var)).sum
          ≤ ((vs.map (fun v => 1 - v / max_var)).length : ℚ) := hsum1
        _ = (vs.length : ℚ) := by simp
  · intro c hc
    simp only [compute_tau2, if_neg h]
    have hsum : scores.sum = (scores.length : ℚ) * c := sum_of_all_eq _ _ hc
    have hmean : scores.sum / (scores.length : ℚ) = c := by
      rw [hsum, mul_comm, mul_div_assoc, div_self (ne_of_gt hlen), mul_one]
    have hvs_zero : ∀ v ∈ scores.map
        (fun score => |score - scores.sum / (scores.length : ℚ)|), v = 0 := by
      intro v hv
      rcases List.mem_map.mp hv with ⟨x, hx, rfl⟩
      rw [hmean, hc x hx]
      simp
    have hvs_ne : scores.map
        (fun score => |score - scores.sum / (scores.length : ℚ)|) ≠ [] := by
      simpa using h
    have hM_le : pymax (scores.map
        (fun score => |score - scores.sum / (scores.length : ℚ)|)) ≤ 0 :=
      pymax_le hvs_ne (fun x hx => le_of_eq (hvs_zero x hx))
    rw [if_neg (not_lt.mpr hM_le)]
    have hts : ∀ t ∈ (scores.map
        (fun score => |score - scores.sum / (scores.length : ℚ)|)).map
        (fun v => 1 - v / 1), t = 1 := by
      intro t ht
      rcases List.mem_map.mp ht with ⟨v, hv, rfl⟩
      rw [hvs_zero v hv]
      norm_num
    rw [sum_of_all_eq _ _ hts, mul_one]
    rw [List.length_map, List.length_map]
    exact div_self (ne_of_gt hlen)

/-- C8 witness: the theorem applied at the concrete score list `[2, 2]`. -/
theorem tau2_range_and_identical_witness :
    (([2, 2] : List ℚ) ≠ []) ∧
    (0 ≤ compute_tau2 [2, 2] ∧ compute_tau2 [2, 2] ≤ 1) ∧
    compute_tau2 [2, 2] = 1 :=
  ⟨by decide, (tau2_range_and_identical [2, 2] (by decide)).1,
    (tau2_range_and_identical [2, 2] (by decide)).2 2 (by decide)⟩

/-- C9: for at least two records the `tau_0` denominator `1 + 2 * MAD` is
nonzero (the MAD is nonnegative), the zero-denominator fallback is
unreachable, and `tau_0 = 1 / (1 + 2 * MAD)` lies in `(0, 1]`. -/
theorem tau0_denominator_and_range (tbl : List (List String))
    (h : 2 ≤ tbl.length) :
    0 ≤ madOf (tbl.map List.length) ∧
    1 + 2 * madOf (tbl.map List.length) ≠ 0 ∧
    tau0Of (tbl.map List.length) = 1 / (1 + 2 * madOf (tbl.map List.length)) ∧
    0 < tau0Of (tbl.map List.length) ∧ tau0Of (tbl.map List.length) ≤ 1 := by
  have hm := madOf_nonneg (tbl.map List.length)
  have hden : (0 : ℚ) < 1 + 2 * madOf (tbl.map List.length) := by linarith
  have hne : 1 + 2 * madOf (tbl.map List.length) ≠ 0 := ne_of_gt hden
  have hlen : 1 < (tbl.map List.length).length := by
    rw [List.length_map]; omega
  have ht : tau0Of (tbl.map List.length) =
      1 / (1 + 2 * madOf (tbl.map List.length)) := by
    unfold tau0Of
    rw [if_pos hlen, if_pos hne]
  refine ⟨hm, hne, ht, ?_, ?_⟩
  · rw [ht]; positivity
  · rw [ht, div_le_one hden]; linarith

/-- C9 witness: the theorem applied at a concrete two-record table. -/
theorem tau0_denominator_and_range_witness :
    2 ≤ ([["a"], ["b", "c"]] : List (List String)).length ∧
    0 < tau0Of (([["a"], ["b", "c"]] : List (List String)).map List.length) ∧
    tau0Of (([["a"], ["b", "c"]] : List (List String)).map List.length) ≤ 1 :=
  ⟨by decide,
    (tau0_denominator_and_range [["a"], ["b", "c"]] (by decide)).2.2.2.1,
    (tau0_denominator_and_range [["a"], ["b", "c"]] (by decide)).2.2.2.2⟩

/-- C10: the constructor ignores its `lambda_sum` parameter, always sets the
field to `0`, and `compute`/`overall_score` give identical results for any
two values of the parameter. -/
theorem init_ignores_lambda_param :
    ∀ (t : Option (List (List String))) (dO : Option Dialect) (v1 v2 : ℚ)
      (E : Externals) (delta : ℝ),
      t_uniformity.init t dO v1 = t_uniformity.init t dO v2 ∧
      (t_uniformity.init t dO v1).lambda_sum = 0 ∧
      t_uniformity.compute E (t_uniformity.init t dO v1) =
        t_uniformity.compute E (t_uniformity.init t dO v2) ∧
      t_uniformity.overall_score E (t_uniformity.init t dO v1) delta =
        t_uniformity.overall_score E (t_uniformity.init t dO v2) delta :=
  fun _ _ _ _ _ _ => ⟨rfl, rfl, rfl, rfl⟩

/-- C2: on a table with zero records, `compute` returns the zero metric
vector and leaves the object untouched, for every classifier (the result
does not mention the externals `E`, hence the classifier is never
consulted) and every dialect. -/
theorem compute_empty_table_zero :
    ∀ (E : Externals) (d : Dialect) (lam : ℚ),
      t_uniformity.compute E { table := some [], dialect := some d, lambda_sum := lam } =
        .ok ({ table := some [], dialect := some d, lambda_sum := lam },
          { tau_0 := 0, tau_1 := 0, tau_2 := 0, tau_3 := 0, lambda_sum := 0 }) :=
  fun _ _ _ => rfl

/-- C3: for a supplied non-empty path, a valid dialect, any threshold and
encoding, the orchestrator's `compute` passes validation, obtains the
sample from the external parser, constructs the scorer from that sample and
the dialect, and returns `overall_score(delta=threshold)`. -/
theorem t_score_compute_wiring
    (parser : String → ℕ → String → Dialect → List (List String))
    (E : Externals) (p : String) (d : Dialect) (thr : ℕ) (enc : String)
    (hp : p ≠ "") (hd : d.validate = true) :
    t_score.compute parser E
      { csv_path := some p, dialect := some d, threshold := thr, encoding := enc } =
      t_uniformity.overall_score E
        (t_uniformity.init (some (parser p thr enc d)) (some d) 0) (thr : ℝ) := by
  have hlen : p.length ≠ 0 := string_length_ne_zero hp
  simp [t_score.compute, t_score.validateE, hlen, hd]

/-- C3 witness: the theorem applied to a concrete parser, path, dialect,
threshold and encoding. -/
theorem t_score_compute_wiring_witness :
    ("f" ≠ "") ∧ dComma.validate = true ∧
    t_score.compute (fun _ _ _ _ => [["a"]]) extStub
      { csv_path := some "f", dialect := some dComma, threshold := 10,
        encoding := "utf_8" } =
      t_uniformity.overall_score extStub
        (t_uniformity.init (some [["a"]]) (some dComma) 0) (10 : ℝ) :=
  ⟨by decide, rfl,
    t_score_compute_wiring (fun _ _ _ _ => [["a"]]) extStub "f" dComma 10 "utf_8"
      (by decide) rfl⟩

/-! ## The tau_1 scan versus the run-length view (C6) -/

lemma loopGo_nil (prev : ℕ) (s : ScanState) : loopGo prev [] s = s := rfl

lemma loopGo_cons (prev k : ℕ) (ks : List ℕ) (s : ScanState) :
    loopGo prev (k :: ks) s =
      if prev ≠ k then
        loopGo k ks
          { c := 0, sm := if s.c > s.sm then s.c else s.sm, alpha := s.alpha + 1,
            k_max := if k > s.k_max then k else s.k_max,
            k_min := if k < s.k_min then k else s.k_min }
      else
        loopGo k ks
          { c := s.c + 1,
            sm := if ks = [] then (if s.c + 1 > s.sm then s.c + 1 else s.sm) else s.sm,
            alpha := s.alpha,
            k_max := if k > s.k_max then k else s.k_max,
            k_min := if k < s.k_min then k else s.k_min } := rfl

lemma foldl_nmax_init (t : List ℕ) : ∀ b : ℕ, t.foldl Nat.max b = Nat.max b (t.foldl Nat.max 0) := by
  induction t with
  | nil =>
    intro b
    simp only [List.foldl_nil, Nat.max_def]
    split_ifs <;> omega
  | cons a t ih =>
    intro b
    rw [List.foldl_cons, List.foldl_cons, ih (Nat.max b a), ih (Nat.max 0 a)]
    simp only [Nat.max_def]
    split_ifs <;> omega

lemma loopGo_sm_alpha :
    ∀ (rest : List ℕ) (prev : ℕ) (s : ScanState), rest ≠ [] →
      (loopGo prev rest s).sm =
        Nat.max s.sm (Nat.max (s.c + leadCount prev rest)
          (((afterRuns prev rest).map (fun r => r - 1)).foldl Nat.max 0)) ∧
      (loopGo prev rest s).alpha = s.alpha + (afterRuns prev rest).length := by
  intro rest
  induction rest with
  | nil => intro prev s h; exact absurd rfl h
  | cons k ks ih =>
    intro prev s _
    by_cases hpk : prev = k
    · rw [loopGo_cons, if_neg (not_not_intro hpk)]
      cases hks : ks with
      | nil =>
        subst hks
        rw [loopGo_nil]
        simp only [leadCount, afterRuns, if_pos hpk.symm, leadCount.eq_1,
          List.map_nil, List.foldl_nil]
        refine ⟨?_, by simp⟩
        simp only [if_pos rfl, Nat.max_def]
        split_ifs <;> omega
      | cons k1 ks1 =>
        have hne : ks ≠ [] := by rw [hks]; simp
        rw [← hks]
        rw [if_neg hne]
        obtain ⟨ihs, iha⟩ := ih k
          { c := s.c + 1, sm := s.sm, alpha := s.alpha,
            k_max := if k > s.k_max then k else s.k_max,
            k_min := if k < s.k_min then k else s.k_min } hne
        constructor
        · rw [ihs]
          simp only [leadCount, afterRuns, if_pos hpk.symm]
          have : s.c + 1 + leadCount k ks = s.c + (leadCount k ks + 1) := by omega
          rw [this, hpk]
        · rw [iha]
          simp only [afterRuns, if_pos hpk.symm, hpk, if_true, eq_self_iff_true]
    · rw [loopGo_cons, if_pos hpk]
      have hka : (k = prev) = False := by
        simp [eq_comm]
        exact fun hh => hpk hh.symm
      cases hks : ks with
      | nil =>
        subst hks
        rw [loopGo_nil]
        simp only [leadCount, afterRuns, hka, if_false, leadCount.eq_1,
          List.map_cons, List.map_nil, List.foldl_cons, List.foldl_nil]
        refine ⟨?_, by simp⟩
        simp only [Nat.max_def]
        split_ifs <;> omega
      | cons k1 ks1 =>
        have hne : ks ≠ [] := by rw [hks]; simp
        rw [← hks]
        obtain ⟨ihs, iha⟩ := ih k
          { c := 0, sm := if s.c > s.sm then s.c else s.sm, alpha := s.alpha + 1,
            k_max := if k > s.k_max then k else s.k_max,
            k_min := if k < s.k_min then k else s.k_min } hne
        constructor
        · rw [ihs]
          simp only [leadCount, afterRuns, hka, if_false, List.map_cons,
            List.foldl_cons, Nat.zero_add]
          rw [foldl_nmax_init ((afterRuns k ks).map (fun r => r - 1))
            (Nat.max 0 (leadCount k ks + 1 - 1))]
          simp only [Nat.max_def]
          split_ifs <;> omega
        · rw [iha]
          simp only [afterRuns, hka, if_false, List.length_cons]
          omega

lemma tau1Scan_sm_spec (fl : List ℕ) (h : fl ≠ []) :
    (tau1ScanOf fl).sm = smSpec fl ∧
    (tau1ScanOf fl).alpha + 1 = (runLengths fl).length := by
  cases fl with
  | nil => exact absurd rfl h
  | cons k0 ks =>
    cases hks : ks with
    | nil =>
      subst hks
      exact ⟨rfl, rfl⟩
    | cons k1 ks1 =>
      have hne : ks ≠ [] := by rw [hks]; simp
      rw [← hks] at *
      have hsc : tau1ScanOf (k0 :: ks) =
          loopGo k0 ks { c := 1, sm := 0, alpha := 0, k_max := k0, k_min := k0 } := by
        simp [tau1ScanOf, hne]
      obtain ⟨hs, ha⟩ := loopGo_sm_alpha ks k0
        { c := 1, sm := 0, alpha := 0, k_max := k0, k_min := k0 } hne
      constructor
      · rw [hsc, hs]
        simp only [smSpec, runLengths]
        simp only [Nat.max_def]
        split_ifs <;> omega
      · rw [hsc, ha]
        simp only [runLengths, List.length_cons]
        omega

/-- C6 (amended): the scan's `sm` is NOT in general the longest maximal
run length; it is `smSpec`: the first maximal run counts in full, every
later maximal run counts one less than its length (the counter is reset to
`0`, not `1`, at a transition).  The transition counter `alpha` is the
number of maximal runs minus one, and when `alpha` and `sm` are positive,
`base_tau_1 = 2 * r * (alpha^2 + 1) * ((1 - sm/n) / sm)` with `n` the
number of records. -/
theorem tau1_scan_characterisation (tbl : List (List String))
    (h : 1 ≤ tbl.length) :
    (tau1ScanOf (tbl.map List.length)).sm = smSpec (tbl.map List.length) ∧
    (tau1ScanOf (tbl.map List.length)).alpha + 1 =
      (runLengths (tbl.map List.length)).length ∧
    (0 < (tau1ScanOf (tbl.map List.length)).alpha →
      0 < (tau1ScanOf (tbl.map List.length)).sm →
      base_tau1Of (tbl.map List.length) =
        2 * ((((tau1ScanOf (tbl.map List.length)).k_max -
            (tau1ScanOf (tbl.map List.length)).k_min : ℕ)) : ℚ) *
          (((tau1ScanOf (tbl.map List.length)).alpha : ℚ) ^ 2 + 1) *
          ((1 - ((tau1ScanOf (tbl.map List.length)).sm : ℚ) / (tbl.length : ℚ)) /
            ((tau1ScanOf (tbl.map List.length)).sm : ℚ))) := by
  have hne : tbl.map List.length ≠ [] := by
    intro h0
    rw [List.map_eq_nil] at h0
    subst h0
    simp at h
  obtain ⟨hs, ha⟩ := tau1Scan_sm_spec _ hne
  refine ⟨hs, ha, ?_⟩
  intro ha' hs'
  simp only [base_tau1Of]
  rw [if_pos (⟨ha', hs'⟩ :
    0 < (tau1ScanOf (tbl.map List.length)).alpha ∧
      0 < (tau1ScanOf (tbl.map List.length)).sm)]
  rw [List.length_map]

/-- C6 counterexample: on the five-record table with field counts
`[2, 2, 1, 1, 1]` the scan computes `sm = 2` while the longest maximal run
(of the three one-field records) has length `3`. -/
theorem tau1_scan_sm_not_longest_run :
    (tau1ScanOf (([["a", "b"], ["a", "b"], ["a"], ["a"], ["a"]] :
        List (List String)).map List.length)).sm ≠
      longestRunLen (([["a", "b"], ["a", "b"], ["a"], ["a"], ["a"]] :
        List (List String)).map List.length) ∧
    (tau1ScanOf (([["a", "b"], ["a", "b"], ["a"], ["a"], ["a"]] :
        List (List String)).map List.length)).sm = 2 ∧
    longestRunLen (([["a", "b"], ["a", "b"], ["a"], ["a"], ["a"]] :
        List (List String)).map List.length) = 3 := by
  decide

/-- C6 witness: the amended theorem applied at the concrete table
`[["a"], ["a", "b"]]` (field counts `[1, 2]`: one transition, `sm = 1`). -/
theorem tau1_scan_characterisation_witness :
    1 ≤ ([["a"], ["a", "b"]] : List (List String)).length ∧
    0 < (tau1ScanOf (([["a"], ["a", "b"]] : List (List String)).map List.length)).alpha ∧
    0 < (tau1ScanOf (([["a"], ["a", "b"]] : List (List String)).map List.length)).sm ∧
    (tau1ScanOf (([["a"], ["a", "b"]] : List (List String)).map List.length)).sm =
      smSpec (([["a"], ["a", "b"]] : List (List String)).map List.length) ∧
    base_tau1Of (([["a"], ["a", "b"]] : List (List String)).map List.length) =
      2 * ((((tau1ScanOf (([["a"], ["a", "b"]] : List (List String)).map List.length)).k_max -
          (tau1ScanOf (([["a"], ["a", "b"]] : List (List String)).map List.length)).k_min : ℕ)) : ℚ) *
        (((tau1ScanOf (([["a"], ["a", "b"]] : List (List String)).map List.length)).alpha : ℚ) ^ 2 + 1) *
        ((1 - ((tau1ScanOf (([["a"], ["a", "b"]] : List (List String)).map List.length)).sm : ℚ) /
            (([["a"], ["a", "b"]] : List (List String)).length : ℚ)) /
          ((tau1ScanOf (([["a"], ["a", "b"]] : List (List String)).map List.length)).sm : ℚ)) :=
  ⟨by decide, by decide, by decide,
    (tau1_scan_characterisation [["a"], ["a", "b"]] (by decide)).1,
    (tau1_scan_characterisation [["a"], ["a", "b"]] (by decide)).2.2 (by decide) (by decide)⟩

/-! ## The instrumented evaluator never faults inside the guards (C7) -/

lemma divE_ok {a b : ℚ} (h : b ≠ 0) : divE a b = .ok (a / b) := by
  simp [divE, h]

lemma length_cast_ne_zero {α : Type} {l : List α} (h : l ≠ []) :
    ((l.length : ℚ)) ≠ 0 := by
  have : l.length ≠ 0 := by simpa [List.length_eq_zero] using h
  exact_mod_cast this

lemma mapM_ok {α β : Type} (g : α → Except String β) (f : α → β) :
    ∀ l : List α, (∀ a ∈ l, g a = .ok (f a)) → l.mapM g = .ok (l.map f) := by
  intro l
  induction l with
  | nil => intro _; rfl
  | cons a as ih =>
    intro h
    rw [List.mapM_cons, h a (by simp), List.map_cons,
      ih (fun x hx => h x (List.mem_cons_of_mem _ hx))]
    rfl

lemma avg_fieldsF_ok (u : t_uniformity) : avg_fieldsF u = .ok u.avg_fields := by
  unfold avg_fieldsF t_uniformity.avg_fields
  cases htbl : u.table with
  | none => rfl
  | some tbl =>
    by_cases h : tbl = []
    · simp [h]
    · simp only [if_neg h]
      rw [divE_ok (length_cast_ne_zero h)]

lemma tau0F_ok (fl : List ℕ) : tau0F fl = .ok (tau0Of fl) := by
  unfold tau0F tau0Of
  split_ifs with h1 h2
  · exact divE_ok h2
  · rfl
  · rfl

lemma base_tau1F_ok (fl : List ℕ) (h : fl ≠ []) :
    base_tau1F fl = .ok (base_tau1Of fl) := by
  unfold base_tau1F base_tau1Of
  by_cases hc : 0 < (tau1ScanOf fl).alpha ∧ 0 < (tau1ScanOf fl).sm
  · rw [if_pos hc, if_pos hc]
    have hn : ((fl.length : ℚ)) ≠ 0 := length_cast_ne_zero h
    have hsm : (((tau1ScanOf fl).sm : ℕ) : ℚ) ≠ 0 :=
      Nat.cast_ne_zero.mpr (Nat.pos_iff_ne_zero.mp hc.2)
    rw [divE_ok hn]
    show (Except.ok ((tau1ScanOf fl).sm / (fl.length : ℚ)) >>= _) = _
    rw [show ∀ (a : ℚ) (f : ℚ → Except String ℚ), (Except.ok a >>= f) = f a
      from fun _ _ => rfl]
    rw [divE_ok hsm]
    rfl
  · rw [if_neg hc, if_neg hc]
    rfl

lemma entropySumF_ok (counts : List ℕ) (n : ℕ) (h : ((n : ℚ)) ≠ 0) :
    entropySumF counts n = .ok (entropySum counts n) := by
  unfold entropySumF entropySum
  generalize (0 : ℝ) = h0
  induction counts generalizing h0 with
  | nil => rfl
  | cons c cs ih =>
    rw [List.foldlM_cons, List.foldl_cons]
    have hstep : (do
        let p ← divE (c : ℚ) (n : ℚ)
        if 0 < p then pure (h0 - (p : ℝ) * Real.logb 2 (p : ℝ)) else pure h0 :
          Except String ℝ) =
        .ok (if 0 < (c : ℚ) / (n : ℚ)
          then h0 - (((c : ℚ) / (n : ℚ) : ℚ) : ℝ) * Real.logb 2 (((c : ℚ) / (n : ℚ) : ℚ) : ℝ)
          else h0) := by
      rw [divE_ok h]
      rw [show ∀ (a : ℚ) (f : ℚ → Except String ℝ), (Except.ok a >>= f) = f a
        from fun _ _ => rfl]
      split_ifs <;> rfl
    rw [hstep]
    exact ih _

lemma tau1F_ok (fl : List ℕ) (h : fl ≠ []) : tau1F fl = .ok (tau1Of fl) := by
  unfold tau1F tau1Of
  rw [base_tau1F_ok fl h]
  show (Except.ok (base_tau1Of fl) >>= _) = _
  rw [show ∀ (a : ℚ) (f : ℚ → Except String ℝ), (Except.ok a >>= f) = f a
    from fun _ _ => rfl]
  rw [entropySumF_ok _ _ (length_cast_ne_zero h)]
  rfl

lemma compute_tau3F_ok (tbl : List (List String)) :
    compute_tau3F tbl = .ok (compute_tau3 tbl) := by
  unfold compute_tau3F compute_tau3
  by_cases h : (shapesOf tbl).length = 0
  · simp only [if_pos h]
    rfl
  · simp only [if_neg h]
    exact entropySumF_ok _ _ (by exact_mod_cast h)

lemma ok_bind {α β : Type} (a : α) (f : α → Except String β) :
    (Except.ok a >>= f : Except String β) = f a := rfl

lemma compute_type_scoresF_ok (E : Externals) (u : t_uniformity) :
    compute_type_scoresF E u = .ok (u.compute_type_scores E) := by
  cases htbl : u.table with
  | none => simp [compute_type_scoresF, t_uniformity.compute_type_scores, htbl]
  | some tbl =>
    cases hd : u.dialect with
    | none =>
      by_cases h : tbl = [] <;>
        simp [compute_type_scoresF, t_uniformity.compute_type_scores, htbl, hd, h]
    | some d =>
      by_cases h : tbl = []
      · simp [compute_type_scoresF, t_uniformity.compute_type_scores, htbl, hd, h]
      · have hrows : 0 < tbl.length := List.length_pos.mpr h
        have hcast : ((tbl.length : ℚ)) ≠ 0 := length_cast_ne_zero h
        have hmap : (List.range (num_colsOf tbl)).mapM
            (fun j => if 0 < tbl.length then divE (colScore E d tbl j) (tbl.length : ℚ)
              else pure 0) =
            .ok ((List.range (num_colsOf tbl)).map
              (fun j => if 0 < tbl.length then colScore E d tbl j / (tbl.length : ℚ)
                else 0)) := by
          apply mapM_ok
          intro j _
          rw [if_pos hrows, if_pos hrows, divE_ok hcast]
        simp only [compute_type_scoresF, t_uniformity.compute_type_scores, htbl, hd,
          if_neg h]
        rw [hmap, ok_bind]
        by_cases hc : 0 < num_colsOf tbl
        · rw [if_pos hc, if_pos hc,
            divE_ok (Nat.cast_ne_zero.mpr (Nat.pos_iff_ne_zero.mp hc)), ok_bind]
          rfl
        · rw [if_neg hc, if_neg hc]
          rfl

lemma compute_tau2F_ok (scores : List ℚ) :
    compute_tau2F scores = .ok (compute_tau2 scores) := by
  by_cases h : scores = []
  · simp [compute_tau2F, compute_tau2, h]
  · have hcast : ((scores.length : ℚ)) ≠ 0 := length_cast_ne_zero h
    simp only [compute_tau2F, compute_tau2, if_neg h]
    rw [divE_ok hcast, ok_bind]
    have hmvne : (if 0 < pymax (scores.map
          (fun score => |score - scores.sum / (scores.length : ℚ)|))
        then pymax (scores.map
          (fun score => |score - scores.sum / (scores.length : ℚ)|)) else 1) ≠ 0 := by
      split_ifs with h'
      · exact ne_of_gt h'
      · norm_num
    have hmapt : (scores.map
          (fun score => |score - scores.sum / (scores.length : ℚ)|)).mapM
          (fun v => do
            let q ← divE v (if 0 < pymax (scores.map
                (fun score => |score - scores.sum / (scores.length : ℚ)|))
              then pymax (scores.map
                (fun score => |score - scores.sum / (scores.length : ℚ)|)) else 1)
            pure (1 - q)) =
        .ok ((scores.map
          (fun score => |score - scores.sum / (scores.length : ℚ)|)).map
          (fun v => 1 - v / (if 0 < pymax (scores.map
              (fun score => |score - scores.sum / (scores.length : ℚ)|))
            then pymax (scores.map
              (fun score => |score - scores.sum / (scores.length : ℚ)|)) else 1))) := by
      apply mapM_ok
      intro v _
      rw [divE_ok hmvne, ok_bind]
      rfl
    rw [hmapt, ok_bind]
    have hlv : (((scores.map
        (fun score => |score - scores.sum / (scores.length : ℚ)|)).length : ℚ)) ≠ 0 := by
      rw [List.length_map]
      exact hcast
    rw [divE_ok hlv]

lemma computeF_ok (E : Externals) (u : t_uniformity) : computeF E u = u.compute E := by
  cases hv : u.validateE with
  | error e => simp [computeF, t_uniformity.compute, hv]
  | ok v =>
    simp only [computeF, t_uniformity.compute, hv]
    by_cases hn : (u.table.getD []).length = 0
    · rw [if_pos hn, if_pos hn]
    · rw [if_neg hn, if_neg hn]
      have htne : u.table.getD [] ≠ [] := fun hh => hn (by rw [hh]; rfl)
      have hfl : (u.table.getD []).map List.length ≠ [] := by
        simpa [List.map_eq_nil_iff] using htne
      rw [tau0F_ok, ok_bind, avg_fieldsF_ok, ok_bind, tau1F_ok _ hfl, ok_bind,
        compute_type_scoresF_ok, ok_bind, compute_tau2F_ok, ok_bind,
        compute_tau3F_ok, ok_bind]
      rfl

lemma divER_ok {a b : ℝ} (h : b ≠ 0) : divER a b = .ok (a / b) := by
  unfold divER
  rw [if_neg h]

lemma cts_table (E : Externals) (u : t_uniformity) :
    (u.compute_type_scores E).1.table = u.table := by
  unfold t_uniformity.compute_type_scores
  cases htbl : u.table with
  | none => simp [htbl]
  | some tbl =>
    by_cases h : tbl = []
    · simp [h, htbl]
    · cases hd : u.dialect with
      | none => simp [h, htbl]
      | some d => simp [h, htbl]

lemma compute_ok_inv (E : Externals) (u u' : t_uniformity) (m : Metrics)
    (hc : u.compute E = .ok (u', m)) :
    u'.table = u.table ∧ ((u.table.getD []).length = 0 → m.tau_1 = 0) := by
  unfold t_uniformity.compute at hc
  cases hv : u.validateE with
  | error e =>
    rw [hv] at hc
    exact absurd hc (by simp)
  | ok v =>
    rw [hv] at hc
    by_cases hn : (u.table.getD []).length = 0
    · rw [if_pos hn] at hc
      have hc2 : (Except.ok (u, Metrics.mk 0 0 0 0 0) :
          Except String (t_uniformity × Metrics)) = .ok (u', m) := hc
      have h1 := Except.ok.inj hc2
      rw [Prod.mk.injEq] at h1
      obtain ⟨h1a, h1b⟩ := h1
      subst h1a
      subst h1b
      exact ⟨rfl, fun _ => rfl⟩
    · rw [if_neg hn] at hc
      have hc2 : (Except.ok ((u.compute_type_scores E).1,
          Metrics.mk (tau0Of ((u.table.getD []).map List.length))
            (tau1Of ((u.table.getD []).map List.length))
            (compute_tau2 (u.compute_type_scores E).2)
            (compute_tau3 (u.table.getD []))
            ((u.compute_type_scores E).1.lambda_sum : ℝ)) :
          Except String (t_uniformity × Metrics)) = .ok (u', m) := hc
      have h1 := Except.ok.inj hc2
      rw [Prod.mk.injEq] at h1
      obtain ⟨h1a, h1b⟩ := h1
      subst h1a
      subst h1b
      exact ⟨cts_table E u, fun h0 => absurd h0 hn⟩

open Classical in
/-- C7 (amended): for every table, dialect and NONZERO `delta`, the
instrumented evaluator (which models `ZeroDivisionError` at every division
the code performs) agrees with the pure semantics: every internal division
is guarded and no division fault escapes.  For `delta = 0` the unguarded
`tau_0 / delta` of `overall_score` does fault (see the counterexample). -/
theorem overall_score_no_internal_fault (E : Externals) (u : t_uniformity)
    (delta : ℝ) (h : delta ≠ 0) :
    overall_scoreF E u delta = t_uniformity.overall_score E u delta := by
  unfold overall_scoreF t_uniformity.overall_score
  rw [computeF_ok]
  cases hc : u.compute E with
  | error e => rfl
  | ok p =>
    obtain ⟨u', m⟩ := p
    show (if m.tau_1 + (((u'.table.getD []).length : ℕ) : ℝ) = 0 ∨ m.tau_3 + 1 = 0 then
        (Except.ok 0 : Except String ℝ)
      else do
        let a ← divER m.tau_0 delta
        let b ← divER 1 (m.tau_1 + (((u'.table.getD []).length : ℕ) : ℝ))
        let c ← divER m.tau_2 (((u'.table.getD []).length : ℕ) : ℝ)
        let e ← divER 1 ((1 + m.tau_3) * (((u'.table.getD []).length : ℕ) : ℝ))
        pure (a + b + c + e * m.lambda_sum)) =
      (if m.tau_1 + (((u'.table.getD []).length : ℕ) : ℝ) = 0 ∨ m.tau_3 + 1 = 0 then
        (Except.ok 0 : Except String ℝ)
      else Except.ok (m.tau_0 / delta +
        1 / (m.tau_1 + (((u'.table.getD []).length : ℕ) : ℝ)) +
        m.tau_2 / (((u'.table.getD []).length : ℕ) : ℝ) +
        1 / ((1 + m.tau_3) * (((u'.table.getD []).length : ℕ) : ℝ)) * m.lambda_sum))
    by_cases hg : m.tau_1 + (((u'.table.getD []).length : ℕ) : ℝ) = 0 ∨ m.tau_3 + 1 = 0
    · rw [if_pos hg, if_pos hg]
    · rw [if_neg hg, if_neg hg]
      push_neg at hg
      obtain ⟨hg1, hg3⟩ := hg
      obtain ⟨htab, htau1⟩ := compute_ok_inv E u u' m hc
      have hnne : (((u'.table.getD []).length : ℕ) : ℝ) ≠ 0 := by
        intro h0
        have hlen0 : (u'.table.getD []).length = 0 := by exact_mod_cast h0
        have : m.tau_1 = 0 := htau1 (by rw [← htab]; exact hlen0)
        apply hg1
        rw [this, hlen0]
        norm_num
      have h3 : (1 : ℝ) + m.tau_3 ≠ 0 := by
        intro hh
        exact hg3 (by linarith)
      have h13 : ((1 : ℝ) + m.tau_3) * (((u'.table.getD []).length : ℕ) : ℝ) ≠ 0 :=
        mul_ne_zero h3 hnne
      rw [divER_ok h, ok_bind, divER_ok hg1, ok_bind, divER_ok hnne, ok_bind,
        divER_ok h13, ok_bind]
      rfl

/-! ## Concrete evaluations -/

lemma entropy_single (n : ℕ) (hn : n ≠ 0) : entropySum [n] n = 0 := by
  simp only [entropySum, List.foldl_cons, List.foldl_nil]
  rw [div_self (Nat.cast_ne_zero.mpr hn)]
  norm_num [Real.logb_one]

lemma cts_eval_single (d : Dialect) (lam : ℚ) :
    t_uniformity.compute_type_scores extStub
      { table := some [["a"]], dialect := some d, lambda_sum := lam } =
      ({ table := some [["a"]], dialect := some d, lambda_sum := 1/10 },
        [(1 : ℚ)/10]) := by
  norm_num [t_uniformity.compute_type_scores, extStub, num_colsOf, colScore,
    totalScores, fieldScore, List.range_succ]

lemma cts_eval_two (d : Dialect) (lam : ℚ) :
    t_uniformity.compute_type_scores extStub
      { table := some [["x"], ["y"]], dialect := some d, lambda_sum := lam } =
      ({ table := some [["x"], ["y"]], dialect := some d, lambda_sum := 1/5 },
        [(1 : ℚ)/10]) := by
  norm_num [t_uniformity.compute_type_scores, extStub, num_colsOf, colScore,
    totalScores, fieldScore, List.range_succ]
  exact List.cons_ne_nil _ _

lemma compute_eval_single (d : Dialect) (lam : ℚ) :
    t_uniformity.compute extStub
      { table := some [["a"]], dialect := some d, lambda_sum := lam } =
      .ok ({ table := some [["a"]], dialect := some d, lambda_sum := 1/10 },
        Metrics.mk 1 0 1 0 ((1/10 : ℚ) : ℝ)) := by
  have hres : t_uniformity.compute_type_scores extStub
      { table := some [["a"]], dialect := some d, lambda_sum := lam } =
      ({ table := some [["a"]], dialect := some d, lambda_sum := 1/10 },
        [(1 : ℚ)/10]) := cts_eval_single d lam
  have htau1 : tau1Of [1] = 0 := by
    unfold tau1Of
    have hb : base_tau1Of [1] = 0 := rfl
    rw [hb]
    push_cast
    ring
  have htau3 : compute_tau3 [["a"]] = 0 := by
    show (if (1 : ℕ) = 0 then (0:ℝ)
      else entropySum (freqCounts (shapesOf [["a"]])) 1) = 0
    rw [if_neg one_ne_zero]
    have hfc : freqCounts (shapesOf [["a"]]) = [1] := rfl
    rw [hfc]
    exact entropy_single 1 one_ne_zero
  have htau2 : compute_tau2 [(1 : ℚ)/10] = 1 := by
    simp only [compute_tau2, pymax]
    norm_num
  show (Except.ok
      ((t_uniformity.compute_type_scores extStub
          { table := some [["a"]], dialect := some d, lambda_sum := lam }).1,
        Metrics.mk (↑(tau0Of [1])) (tau1Of [1])
          (↑(compute_tau2 (t_uniformity.compute_type_scores extStub
            { table := some [["a"]], dialect := some d, lambda_sum := lam }).2))
          (compute_tau3 [["a"]])
          (↑(t_uniformity.compute_type_scores extStub
            { table := some [["a"]], dialect := some d, lambda_sum := lam }).1.lambda_sum)) :
      Except String (t_uniformity × Metrics)) = _
  rw [hres, htau1, htau3]
  show (Except.ok
      ({ table := some [["a"]], dialect := some d, lambda_sum := 1/10 },
        Metrics.mk (↑(tau0Of [1])) 0 (↑(compute_tau2 [(1 : ℚ)/10])) 0 (↑((1:ℚ)/10))) :
      Except String (t_uniformity × Metrics)) = _
  rw [htau2, show tau0Of [1] = 1 from rfl]
  norm_num

lemma compute_eval_two (d : Dialect) (lam : ℚ) :
    t_uniformity.compute extStub
      { table := some [["x"], ["y"]], dialect := some d, lambda_sum := lam } =
      .ok ({ table := some [["x"], ["y"]], dialect := some d, lambda_sum := 1/5 },
        Metrics.mk 1 0 1 0 ((1/5 : ℚ) : ℝ)) := by
  have hres : t_uniformity.compute_type_scores extStub
      { table := some [["x"], ["y"]], dialect := some d, lambda_sum := lam } =
      ({ table := some [["x"], ["y"]], dialect := some d, lambda_sum := 1/5 },
        [(1 : ℚ)/10]) := cts_eval_two d lam
  have htau1 : tau1Of [1, 1] = 0 := by
    unfold tau1Of
    have hb : base_tau1Of [1, 1] = 0 := rfl
    rw [hb]
    push_cast
    ring
  have htau3 : compute_tau3 [["x"], ["y"]] = 0 := by
    show (if (2 : ℕ) = 0 then (0:ℝ)
      else entropySum (freqCounts (shapesOf [["x"], ["y"]])) 2) = 0
    rw [if_neg (by norm_num)]
    have hfc : freqCounts (shapesOf [["x"], ["y"]]) = [2] := rfl
    rw [hfc]
    exact entropy_single 2 (by norm_num)
  have htau2 : compute_tau2 [(1 : ℚ)/10] = 1 := by
    simp only [compute_tau2, pymax]
    norm_num
  have htau0 : tau0Of [1, 1] = 1 := by
    have hm : madOf [1, 1] = 0 := by
      norm_num [madOf, median, sortQ, insertSorted, madConst, List.getD,
        List.getElem?_cons_zero, List.getElem?_cons_succ, Option.getD_some]
    simp only [tau0Of, hm]
    norm_num
  show (Except.ok
      ((t_uniformity.compute_type_scores extStub
          { table := some [["x"], ["y"]], dialect := some d, lambda_sum := lam }).1,
        Metrics.mk (↑(tau0Of [1, 1])) (tau1Of [1, 1])
          (↑(compute_tau2 (t_uniformity.compute_type_scores extStub
            { table := some [["x"], ["y"]], dialect := some d, lambda_sum := lam }).2))
          (compute_tau3 [["x"], ["y"]])
          (↑(t_uniformity.compute_type_scores extStub
            { table := some [["x"], ["y"]], dialect := some d, lambda_sum := lam }).1.lambda_sum)) :
      Except String (t_uniformity × Metrics)) = _
  rw [hres, htau1, htau3]
  show (Except.ok
      ({ table := some [["x"], ["y"]], dialect := some d, lambda_sum := 1/5 },
        Metrics.mk (↑(tau0Of [1, 1])) 0 (↑(compute_tau2 [(1 : ℚ)/10])) 0 (↑((1:ℚ)/5))) :
      Except String (t_uniformity × Metrics)) = _
  rw [htau2, htau0]
  norm_num

lemma cts_fst_of_empty (E : Externals) (u : t_uniformity)
    (h : u.table.getD [] = []) : (u.compute_type_scores E).1 = u := by
  unfold t_uniformity.compute_type_scores
  cases htbl : u.table with
  | none => rfl
  | some tbl =>
    have hte : tbl = [] := by rw [htbl] at h; simpa using h
    simp [hte]

/-- C5 (amended): the type-scoring step returns ONLY the per-column average
scores and communicates `lambda_sum` by mutating the scorer's instance
field: the object `compute` returns is exactly the object
`compute_type_scores` mutated, and for a non-empty table the reported
`lambda_sum` metric is read back from that mutated field. -/
theorem compute_reads_mutated_lambda (E : Externals) (u u' : t_uniformity)
    (m : Metrics) (hc : u.compute E = .ok (u', m)) :
    u' = (u.compute_type_scores E).1 ∧
    ((u.table.getD []) ≠ [] → m.lambda_sum = ((u'.lambda_sum : ℚ) : ℝ)) := by
  unfold t_uniformity.compute at hc
  cases hv : u.validateE with
  | error e =>
    rw [hv] at hc
    exact absurd hc (by simp)
  | ok v =>
    rw [hv] at hc
    by_cases hn : (u.table.getD []).length = 0
    · rw [if_pos hn] at hc
      have hc2 : (Except.ok (u, Metrics.mk 0 0 0 0 0) :
          Except String (t_uniformity × Metrics)) = .ok (u', m) := hc
      have h1 := Except.ok.inj hc2
      rw [Prod.mk.injEq] at h1
      obtain ⟨h1a, h1b⟩ := h1
      subst h1a
      subst h1b
      constructor
      · exact (cts_fst_of_empty E u (List.length_eq_zero.mp hn)).symm
      · intro hne
        exact absurd (List.length_eq_zero.mp hn) hne
    · rw [if_neg hn] at hc
      have hc2 : (Except.ok ((u.compute_type_scores E).1,
          Metrics.mk (tau0Of ((u.table.getD []).map List.length))
            (tau1Of ((u.table.getD []).map List.length))
            (compute_tau2 (u.compute_type_scores E).2)
            (compute_tau3 (u.table.getD []))
            ((u.compute_type_scores E).1.lambda_sum : ℝ)) :
          Except String (t_uniformity × Metrics)) = .ok (u', m) := hc
      have h1 := Except.ok.inj hc2
      rw [Prod.mk.injEq] at h1
      obtain ⟨h1a, h1b⟩ := h1
      subst h1a
      subst h1b
      exact ⟨rfl, fun _ => rfl⟩

/-- C5 counterexample: `compute_type_scores` DOES mutate the instance field
`lambda_sum` (from `0` to `0.1` on a one-field unrecognised table), so the
claim that no instance field is mutated is false. -/
theorem compute_type_scores_mutates_field :
    (t_uniformity.compute_type_scores extStub
        { table := some [["a"]], dialect := some dComma, lambda_sum := 0 }).1.lambda_sum = 1/10 ∧
    ({ table := some [["a"]], dialect := some dComma, lambda_sum := (0:ℚ) } :
      t_uniformity).lambda_sum = 0 ∧
    (t_uniformity.compute_type_scores extStub
        { table := some [["a"]], dialect := some dComma, lambda_sum := 0 }).1.lambda_sum ≠
      ({ table := some [["a"]], dialect := some dComma, lambda_sum := (0:ℚ) } :
        t_uniformity).lambda_sum := by
  rw [cts_eval_single dComma 0]
  norm_num

/-- C5 witness: the amended theorem applied at a concrete one-record table
and stub classifier. -/
theorem compute_reads_mutated_lambda_witness :
    t_uniformity.compute extStub
      { table := some [["a"]], dialect := some dComma, lambda_sum := 0 } =
      .ok ({ table := some [["a"]], dialect := some dComma, lambda_sum := 1/10 },
        Metrics.mk 1 0 1 0 ((1/10 : ℚ) : ℝ)) ∧
    (({ table := some [["a"]], dialect := some dComma, lambda_sum := (0:ℚ) } :
      t_uniformity).table.getD []) ≠ [] ∧
    ({ table := some [["a"]], dialect := some dComma, lambda_sum := (1:ℚ)/10 } :
      t_uniformity) =
      (t_uniformity.compute_type_scores extStub
        { table := some [["a"]], dialect := some dComma, lambda_sum := 0 }).1 ∧
    (Metrics.mk (1:ℝ) 0 1 0 ((1/10 : ℚ) : ℝ)).lambda_sum =
      ((({ table := some [["a"]], dialect := some dComma, lambda_sum := (1:ℚ)/10 } :
        t_uniformity).lambda_sum : ℚ) : ℝ) :=
  ⟨compute_eval_single dComma 0, by decide,
    (compute_reads_mutated_lambda extStub _ _ _ (compute_eval_single dComma 0)).1,
    (compute_reads_mutated_lambda extStub _ _ _ (compute_eval_single dComma 0)).2
      (by decide)⟩

/-- C4 (amended): the scorer's own validation raises only for a null table
or a null dialect — it does NOT check dialect validity (any non-null
dialect, valid or not, passes); the orchestrator's validation is the one
that additionally rejects an invalid dialect (and a null or empty path). -/
theorem validation_checks (tbl : List (List String)) (d : Dialect) (lam : ℚ)
    (dO : Option Dialect) (p : String) (thr : ℕ) (enc : String) :
    t_uniformity.validateE
      { table := some tbl, dialect := some d, lambda_sum := lam } = .ok () ∧
    t_uniformity.validateE { table := none, dialect := dO, lambda_sum := lam } =
      .error "The target table should be provided" ∧
    t_uniformity.validateE { table := some tbl, dialect := none, lambda_sum := lam } =
      .error "The dialect should be provided" ∧
    (p ≠ "" → d.validate = false →
      t_score.validateE
        { csv_path := some p, dialect := some d, threshold := thr, encoding := enc } =
        .error "The dialect should be provided") := by
  refine ⟨rfl, rfl, rfl, ?_⟩
  intro hp hd
  unfold t_score.validateE
  show (if p.length = 0 then
      Except.error "The path to the target CSV file should be provided"
    else if !d.validate then Except.error "The dialect should be provided"
    else Except.ok ()) = _
  rw [if_neg (string_length_ne_zero hp), hd]
  rfl

/-- C4 counterexample: a non-null table together with a non-null dialect
that reports itself INVALID passes the scorer's validation and `compute`
succeeds with a metric vector — no `InvalidArgument` condition is raised by
the scorer. -/
theorem scorer_accepts_invalid_dialect :
    dBad.validate = false ∧
    t_uniformity.validateE
      { table := some [["a"]], dialect := some dBad, lambda_sum := 0 } = .ok () ∧
    t_uniformity.compute extStub
      { table := some [["a"]], dialect := some dBad, lambda_sum := 0 } =
      .ok ({ table := some [["a"]], dialect := some dBad, lambda_sum := 1/10 },
        Metrics.mk 1 0 1 0 ((1/10 : ℚ) : ℝ)) :=
  ⟨rfl, rfl, compute_eval_single dBad 0⟩

/-- C4 witness: the amended theorem applied at a concrete invalid dialect,
table and path. -/
theorem validation_checks_witness :
    ("f" ≠ "") ∧ dBad.validate = false ∧
    t_score.validateE
      { csv_path := some "f", dialect := some dBad, threshold := 10,
        encoding := "utf_8" } = .error "The dialect should be provided" ∧
    t_uniformity.validateE
      { table := some [["a"]], dialect := some dBad, lambda_sum := 0 } = .ok () :=
  ⟨by decide, rfl,
    (validation_checks [["a"]] dBad 0 none "f" 10 "utf_8").2.2.2 (by decide) rfl,
    (validation_checks [["a"]] dBad 0 none "f" 10 "utf_8").1⟩

open Classical in
/-- C1 (amended): for a non-empty table and a NONZERO `delta`,
`overall_score` returns
`tau_0/delta + 1/(tau_1+n) + tau_2/n + lambda_sum/((1+tau_3)*n)` over the
metric vector of `compute`, and returns `0.0` when `tau_1 + n = 0` or
`tau_3 + 1 = 0`.  At `delta = 0` the code raises `ZeroDivisionError`
instead (see the counterexample). -/
theorem overall_score_formula (E : Externals) (tbl : List (List String))
    (d : Dialect) (lam : ℚ) (delta : ℝ) (u' : t_uniformity) (m : Metrics)
    (htbl : tbl ≠ []) (hdelta : delta ≠ 0)
    (hc : t_uniformity.compute E
      { table := some tbl, dialect := some d, lambda_sum := lam } = .ok (u', m)) :
    t_uniformity.overall_score E
      { table := some tbl, dialect := some d, lambda_sum := lam } delta =
      (if m.tau_1 + (tbl.length : ℝ) = 0 ∨ m.tau_3 + 1 = 0 then .ok 0
      else .ok (m.tau_0 / delta + 1 / (m.tau_1 + (tbl.length : ℝ)) +
        m.tau_2 / (tbl.length : ℝ) +
        m.lambda_sum / ((1 + m.tau_3) * (tbl.length : ℝ)))) := by
  have htab := (compute_ok_inv E _ u' m hc).1
  unfold t_uniformity.overall_score
  rw [hc]
  show (if m.tau_1 + (((u'.table.getD []).length : ℕ) : ℝ) = 0 ∨ m.tau_3 + 1 = 0 then
      (Except.ok 0 : Except String ℝ)
    else Except.ok (m.tau_0 / delta +
      1 / (m.tau_1 + (((u'.table.getD []).length : ℕ) : ℝ)) +
      m.tau_2 / (((u'.table.getD []).length : ℕ) : ℝ) +
      1 / ((1 + m.tau_3) * (((u'.table.getD []).length : ℕ) : ℝ)) * m.lambda_sum)) = _
  rw [htab]
  simp only [Option.getD_some]
  rw [one_div_mul_eq_div]

open Classical in
/-- C1 witness: the amended theorem applied at a concrete two-record table
with `delta = 2`. -/
theorem overall_score_formula_witness :
    (([["x"], ["y"]] : List (List String)) ≠ []) ∧ ((2:ℝ) ≠ 0) ∧
    t_uniformity.overall_score extStub
      { table := some [["x"], ["y"]], dialect := some dComma, lambda_sum := 0 } 2 =
      (if (Metrics.mk (1:ℝ) 0 1 0 ((1/5 : ℚ) : ℝ)).tau_1 +
          (([["x"], ["y"]] : List (List String)).length : ℝ) = 0 ∨
          (Metrics.mk (1:ℝ) 0 1 0 ((1/5 : ℚ) : ℝ)).tau_3 + 1 = 0 then .ok 0
      else .ok ((Metrics.mk (1:ℝ) 0 1 0 ((1/5 : ℚ) : ℝ)).tau_0 / 2 +
        1 / ((Metrics.mk (1:ℝ) 0 1 0 ((1/5 : ℚ) : ℝ)).tau_1 +
          (([["x"], ["y"]] : List (List String)).length : ℝ)) +
        (Metrics.mk (1:ℝ) 0 1 0 ((1/5 : ℚ) : ℝ)).tau_2 /
          (([["x"], ["y"]] : List (List String)).length : ℝ) +
        (Metrics.mk (1:ℝ) 0 1 0 ((1/5 : ℚ) : ℝ)).lambda_sum /
          ((1 + (Metrics.mk (1:ℝ) 0 1 0 ((1/5 : ℚ) : ℝ)).tau_3) *
            (([["x"], ["y"]] : List (List String)).length : ℝ)))) :=
  ⟨by decide, by norm_num,
    overall_score_formula extStub [["x"], ["y"]] dComma 0 2 _ _ (by decide)
      (by norm_num) (compute_eval_two dComma 0)⟩

/-- C1 counterexample: at `delta = 0` (and a non-empty table) the unguarded
`tau_0 / delta` raises `ZeroDivisionError`: `overall_score` does not return
the claimed value for EVERY delta. -/
theorem overall_score_raises_at_zero_delta :
    overall_scoreF extStub
      { table := some [["x"], ["y"]], dialect := some dComma, lambda_sum := 0 } 0 =
      .error "ZeroDivisionError" := by
  unfold overall_scoreF
  rw [computeF_ok, compute_eval_two dComma 0]
  show (if (0:ℝ) + ((2:ℕ) : ℝ) = 0 ∨ (0:ℝ) + 1 = 0 then (Except.ok 0 : Except String ℝ)
    else do
      let a ← divER 1 0
      let b ← divER 1 ((0:ℝ) + ((2:ℕ) : ℝ))
      let c ← divER 1 ((2:ℕ) : ℝ)
      let e ← divER 1 ((1 + (0:ℝ)) * ((2:ℕ) : ℝ))
      pure (a + b + c + e * ((1/5 : ℚ) : ℝ))) = .error "ZeroDivisionError"
  rw [if_neg (by norm_num)]
  rw [show divER (1:ℝ) 0 = (.error "ZeroDivisionError" : Except String ℝ) from by
    unfold divER; rw [if_pos rfl]]
  rfl

/-- C7 counterexample: `overall_score(delta=0)` on a one-record table hits
the unguarded division `tau_0 / delta` and faults: not every division whose
denominator can be zero is checked. -/
theorem overall_score_delta_zero_fault :
    overall_scoreF extStub
      { table := some [["a"]], dialect := some dComma, lambda_sum := 0 } 0 =
      .error "ZeroDivisionError" := by
  unfold overall_scoreF
  rw [computeF_ok, compute_eval_single dComma 0]
  show (if (0:ℝ) + ((1:ℕ) : ℝ) = 0 ∨ (0:ℝ) + 1 = 0 then (Except.ok 0 : Except String ℝ)
    else do
      let a ← divER 1 0
      let b ← divER 1 ((0:ℝ) + ((1:ℕ) : ℝ))
      let c ← divER 1 ((1:ℕ) : ℝ)
      let e ← divER 1 ((1 + (0:ℝ)) * ((1:ℕ) : ℝ))
      pure (a + b + c + e * ((1/10 : ℚ) : ℝ))) = .error "ZeroDivisionError"
  rw [if_neg (by norm_num)]
  rw [show divER (1:ℝ) 0 = (.error "ZeroDivisionError" : Except String ℝ) from by
    unfold divER; rw [if_pos rfl]]
  rfl

/-- C7 witness: the amended theorem applied at a concrete table, dialect
and `delta = 2`. -/
theorem overall_score_no_internal_fault_witness :
    ((2:ℝ) ≠ 0) ∧
    overall_scoreF extStub
      { table := some [["a"]], dialect := some dComma, lambda_sum := 0 } 2 =
      t_uniformity.overall_score extStub
        { table := some [["a"]], dialect := some dComma, lambda_sum := 0 } 2 :=
  ⟨by norm_num,
    overall_score_no_internal_fault extStub
      { table := some [["a"]], dialect := some dComma, lambda_sum := 0 } 2
      (by norm_num)⟩
